import Mathlib

/-!
Verification of the Envoy admin stats handler
(source/server/http/stats_handler.cc) against its natural-language
specification.  The C++ code is shallowly embedded: the metric store is a
record of lists, std::map / std::multimap emplace become insertion into a
name-sorted association list, the protobuf JSON document becomes an
inductive JSON value type with a deterministic serializer, and the
debug-build ASSERT becomes an Except error path.
-/

namespace EnvoyStats

/-- Gauge import mode tag (Stats::Gauge::ImportMode). -/
inductive ImportMode where
  | uninitialized
  | neverImport
  | accumulate
deriving DecidableEq, Repr

/-- A counter metric: name, current value, used flag. -/
structure Counter where
  name : String
  value : Nat
  used : Bool
deriving DecidableEq, Repr

/-- A gauge metric: name, current value, used flag, import mode. -/
structure Gauge where
  name : String
  value : Nat
  used : Bool
  importMode : ImportMode
deriving DecidableEq, Repr

/-- A text readout metric: name, string value, used flag. -/
structure TextReadout where
  name : String
  value : String
  used : Bool
deriving DecidableEq, Repr

/-- A computed quantile value: a double that is either a finite number
(modelled as a rational) or not-a-number. -/
inductive HVal where
  | nan
  | num (q : ℚ)
deriving DecidableEq, Repr

/-- Histogram statistics view (Stats::HistogramStatistics): the supported
quantile cut-points and the computed value at each cut-point. -/
structure HistogramStatistics where
  supportedQuantiles : List ℚ
  computedQuantiles : List HVal
deriving DecidableEq, Repr

/-- A parent histogram: name, used flag, interval and cumulative statistics
views, and the human-readable quantile summary string. -/
structure ParentHistogram where
  name : String
  used : Bool
  intervalStatistics : HistogramStatistics
  cumulativeStatistics : HistogramStatistics
  quantileSummary : String
deriving DecidableEq, Repr

/-- The metric store view used by the handler (server.stats()): the four
iterables of metrics, in their original enumeration order. -/
structure Store where
  counters : List Counter
  gauges : List Gauge
  textReadouts : List TextReadout
  histograms : List ParentHistogram
deriving Repr

/-- A compiled regex is modelled by its match predicate
(std::regex_search semantics: substring search on the name). -/
def Rgx : Type := String → Bool

/-- Modelled from the spec: MetricFilter.shouldShow
(StatsHandler::shouldShowMetric, declared in stats_handler.h which is not
under src/).  Reject when usedonly is set and the metric is unused; reject
when a pattern is present and the name does not match; otherwise accept. -/
def shouldShowMetric (used : Bool) (name : String) (usedOnly : Bool)
    (regex : Option Rgx) : Bool :=
  (!usedOnly || used) &&
    (match regex with
     | none => true
     | some r => r name)

/-- The parsed query string of a /stats request: presence of usedonly,
optional filter pattern, optional format value
(Http::Utility::parseQueryString is an external collaborator). -/
structure Params where
  usedonly : Bool
  filter : Option String
  format : Option String

/-- HTTP status codes used by the handler. -/
inductive Code where
  | OK
  | BadRequest
  | NotFound
deriving DecidableEq, Repr

/-- Diagnostic body written when the filter pattern fails to compile. -/
def invalidRegexBody (pat : String) : String :=
  "Invalid regex: " ++ pat ++ "\n"

/-- Modelled from the spec: Utility::filterParam (source/server/http/utils.cc,
not under src/).  An absent filter parameter yields no regex; a present one
is compiled, and compilation failure is a client error carrying a
diagnostic body.  The regex compiler is a parameter (std::regex
construction is external). -/
def filterParam (compile : String → Option Rgx) (p : Params) :
    Except String (Option Rgx) :=
  match p.filter with
  | none => Except.ok none
  | some pat =>
    match compile pat with
    | some r => Except.ok (some r)
    | none => Except.error (invalidRegexBody pat)

/-- Concatenation of a list of strings, in order. -/
def strConcat : List String → String
  | [] => ""
  | s :: rest => s ++ strConcat rest

/-- Lexicographic strict order on character lists, by code point. -/
def lexLt : List Char → List Char → Bool
  | [], [] => false
  | [], _ :: _ => true
  | _ :: _, [] => false
  | x :: xs, y :: ys =>
    if x.toNat < y.toNat then true
    else if y.toNat < x.toNat then false
    else lexLt xs ys

/-- std::string operator< : lexicographic comparison (byte order on UTF-8
strings coincides with code-point order). -/
def strLt (a b : String) : Bool :=
  lexLt a.toList b.toList

/-- std::map::emplace on a name-sorted association list: insert keeping the
sort, and do nothing when the key is already present. -/
def emplace (k : String) (v : α) : List (String × α) → List (String × α)
  | [] => [(k, v)]
  | (k₀, v₀) :: rest =>
    if strLt k k₀ then (k, v) :: (k₀, v₀) :: rest
    else if k = k₀ then (k₀, v₀) :: rest
    else (k₀, v₀) :: emplace k v rest

/-- std::multimap::emplace on a name-sorted association list: insert keeping
the sort, after any entries with an equal key. -/
def memplace (k : String) (v : α) : List (String × α) → List (String × α)
  | [] => [(k, v)]
  | (k₀, v₀) :: rest =>
    if strLt k k₀ then (k, v) :: (k₀, v₀) :: rest
    else (k₀, v₀) :: memplace k v rest

/-- Association-list lookup (first entry with the key). -/
def alookup (k : String) : List (String × α) → Option α
  | [] => none
  | (k₀, v) :: rest => if k = k₀ then some v else alookup k rest

/-- First-defined choice between two optional values. -/
def oalt (a b : Option α) : Option α :=
  match a with
  | some x => some x
  | none => b

/-- Message of the debug assertion guarding gauge insertion
(ASSERT(gauge->importMode() != Stats::Gauge::ImportMode::Uninitialized)). -/
def assertMsg : String :=
  "assert failure: gauge->importMode() != Stats::Gauge::ImportMode::Uninitialized"

/-- The gauge loop of handlerStats: filter each gauge, assert that a shown
gauge is not in uninitialized import mode, and emplace it into the
accumulated all_stats map. -/
def gaugeFold (usedOnly : Bool) (regex : Option Rgx) :
    List Gauge → List (String × Nat) → Except String (List (String × Nat))
  | [], m => Except.ok m
  | g :: rest, m =>
    if shouldShowMetric g.used g.name usedOnly regex then
      if g.importMode = ImportMode.uninitialized then Except.error assertMsg
      else gaugeFold usedOnly regex rest (emplace g.name g.value m)
    else gaugeFold usedOnly regex rest m

/-- The all_stats map of handlerStats: counters first, then gauges, each
filtered and emplaced by name.  The gauge loop may fail on the debug
assertion. -/
def buildAllStats (s : Store) (usedOnly : Bool) (regex : Option Rgx) :
    Except String (List (String × Nat)) :=
  gaugeFold usedOnly regex s.gauges
    (s.counters.foldl
      (fun m c =>
        if shouldShowMetric c.used c.name usedOnly regex then
          emplace c.name c.value m
        else m) [])

/-- The text_readouts map of handlerStats: every passing text readout
emplaced by name. -/
def buildTextReadouts (s : Store) (usedOnly : Bool) (regex : Option Rgx) :
    List (String × String) :=
  s.textReadouts.foldl
    (fun m t =>
      if shouldShowMetric t.used t.name usedOnly regex then
        emplace t.name t.value m
      else m) []

/-- The all_histograms multimap of the plain-text path: every passing
histogram emplaced (duplicates kept) with its quantile summary. -/
def buildAllHistograms (s : Store) (usedOnly : Bool) (regex : Option Rgx) :
    List (String × String) :=
  s.histograms.foldl
    (fun m h =>
      if shouldShowMetric h.used h.name usedOnly regex then
        memplace h.name h.quantileSummary m
      else m) []

/-- Plain-text rendering of the text readout map: name, colon, the
sanitized value in double quotes (Html::Utility::sanitize is an external
collaborator passed as a parameter; it is applied to the value only). -/
def renderTextReadouts (sanitize : String → String)
    (texts : List (String × String)) : String :=
  strConcat (texts.map (fun kv => kv.1 ++ ": \"" ++ sanitize kv.2 ++ "\"\n"))

/-- Plain-text rendering of the all_stats map: name, colon, decimal value,
with no escaping. -/
def renderAllStats (stats : List (String × Nat)) : String :=
  strConcat (stats.map (fun kv => kv.1 ++ ": " ++ toString kv.2 ++ "\n"))

/-- Plain-text rendering of the histogram multimap: name, colon, quantile
summary. -/
def renderHistograms (hists : List (String × String)) : String :=
  strConcat (hists.map (fun kv => kv.1 ++ ": " ++ kv.2 ++ "\n"))

/-- A JSON value, the shape of the ProtobufWkt::Struct / Value document
built by statsAsJson.  Object field lists are kept in the order the JSON
serialization collaborator emits them (sorted by key, as the protobuf JSON
printer does for Struct maps). -/
inductive JValue where
  | null
  | num (q : ℚ)
  | str (s : String)
  | arr (elems : List JValue)
  | obj (fields : List (String × JValue))

/-- Render a JSON number.  The document only ever serializes integral
doubles in the claims checked here; an integral rational prints as its
integer. -/
def renderNum (q : ℚ) : String :=
  let digits := toString q.num.natAbs
  let signed := if q.num < 0 then "-" ++ digits else digits
  if q.den = 1 then signed else signed ++ "/" ++ toString q.den

/-- Escape a character for a JSON string literal. -/
def escapeChar (c : Char) : String :=
  if c = '"' then "\\\""
  else if c = '\\' then "\\\\"
  else String.singleton c

/-- Escape a JSON string body. -/
def escapeString (s : String) : String :=
  strConcat (s.toList.map escapeChar)

/-- A quoted JSON string literal. -/
def quoted (s : String) : String :=
  "\"" ++ escapeString s ++ "\""

mutual

/-- Modelled from the spec: the JSON serialization primitive
(MessageUtil::getJsonStringFromMessage, non-pretty) as pinned down by the
spec scenario output.  Compact rendering, no added whitespace. -/
def serialize : JValue → String
  | JValue.null => "null"
  | JValue.num q => renderNum q
  | JValue.str s => quoted s
  | JValue.arr l => "[" ++ serializeElems l ++ "]"
  | JValue.obj fields => "\x7b" ++ serializeFields fields ++ "\x7d"

/-- Comma-separated serialization of array elements. -/
def serializeElems : List JValue → String
  | [] => ""
  | [v] => serialize v
  | v :: v₂ :: rest => serialize v ++ "," ++ serializeElems (v₂ :: rest)

/-- Comma-separated serialization of object fields. -/
def serializeFields : List (String × JValue) → String
  | [] => ""
  | [kv] => quoted kv.1 ++ ":" ++ serialize kv.2
  | kv :: kv₂ :: rest =>
    quoted kv.1 ++ ":" ++ serialize kv.2 ++ "," ++ serializeFields (kv₂ :: rest)

end

/-- The text readout JSON object: name and string value. -/
def textReadoutObj (kv : String × String) : JValue :=
  JValue.obj [("name", JValue.str kv.1), ("value", JValue.str kv.2)]

/-- The scalar stat JSON object: name and numeric value. -/
def statObj (kv : String × Nat) : JValue :=
  JValue.obj [("name", JValue.str kv.1), ("value", JValue.num (kv.2 : ℚ))]

/-- A computed quantile double rendered into JSON: an explicit null when it
is not-a-number, else its numeric value. -/
def hvalToJson : HVal → JValue
  | HVal.nan => JValue.null
  | HVal.num q => JValue.num q

/-- Modelled from the spec: the supported quantile cut-points of a
default-constructed Stats::HistogramStatisticsImpl (not under src/), as
fractions. -/
def emptyStatisticsSupportedQuantiles : List ℚ :=
  [0, 1/4, 1/2, 3/4, 9/10, 19/20, 99/100, 199/200, 999/1000, 1]

/-- The supported_quantiles array: each cut-point fraction times 100. -/
def supportedQuantileArray : List JValue :=
  emptyStatisticsSupportedQuantiles.map (fun q => JValue.num (q * 100))

/-- The values array of one histogram's computed_quantiles entry: for each
index of the interval statistics' supported quantiles, the interval and
cumulative computed values at that index (null when not-a-number). -/
def computedQuantileValues (h : ParentHistogram) : List JValue :=
  (List.range h.intervalStatistics.supportedQuantiles.length).map
    (fun i => JValue.obj
      [("cumulative",
         hvalToJson (h.cumulativeStatistics.computedQuantiles.getD i HVal.nan)),
       ("interval",
         hvalToJson (h.intervalStatistics.computedQuantiles.getD i HVal.nan))])

/-- One histogram's computed_quantiles entry: its name and its values
array. -/
def computedQuantileObj (h : ParentHistogram) : JValue :=
  JValue.obj [("name", JValue.str h.name),
              ("values", JValue.arr (computedQuantileValues h))]

/-- One step of the histogram loop in statsAsJson: the "found a used
histogram" flag and the accumulated computed_quantiles array. -/
def histogramJsonStep (usedOnly : Bool) (regex : Option Rgx)
    (st : Bool × List JValue) (h : ParentHistogram) : Bool × List JValue :=
  if shouldShowMetric h.used h.name usedOnly regex then
    (true, st.2 ++ [computedQuantileObj h])
  else st

/-- The histograms wrapper object appended to the stats array when at least
one histogram passed the filter. -/
def histogramsWrapper (computed : List JValue) : JValue :=
  JValue.obj [("histograms", JValue.obj
    [("computed_quantiles", JValue.arr computed),
     ("supported_quantiles", JValue.arr supportedQuantileArray)])]

/-- StatsHandler::statsAsJson: the document with its single stats array —
text readouts, then scalar stats, then (only when some histogram passed the
filter) the histograms wrapper. -/
def statsAsJson (allStats : List (String × Nat))
    (textReadouts : List (String × String))
    (allHistograms : List ParentHistogram)
    (usedOnly : Bool) (regex : Option Rgx) : JValue :=
  let base := textReadouts.map textReadoutObj ++ allStats.map statObj
  let st := allHistograms.foldl (histogramJsonStep usedOnly regex) (false, [])
  let statsArray := if st.1 then base ++ [histogramsWrapper st.2] else base
  JValue.obj [("stats", JValue.arr statsArray)]

/-- The usage hint body written for an unrecognized format value (the
handler adds the hint line and then a blank line). -/
def usageBody : String :=
  "usage: /stats?format=json  or /stats?format=prometheus \n" ++ "\n"

/-- StatsHandler::handlerPrometheusStats: re-parse the filter criteria and
hand the store to the Prometheus formatting collaborator
(PrometheusStatsFormatter::statsAsPrometheus, external, passed as a
parameter). -/
def handlerPrometheusStats (prom : Store → Bool → Option Rgx → String)
    (compile : String → Option Rgx) (p : Params) (s : Store) :
    Except String (Code × String) :=
  match filterParam compile p with
  | Except.error diag => Except.ok (Code.BadRequest, diag)
  | Except.ok regex => Except.ok (Code.OK, prom s p.usedonly regex)

/-- StatsHandler::handlerStats: parse the filter, aggregate counters,
gauges and text readouts, then dispatch on the format parameter: json,
prometheus, unrecognized (usage hint, NotFound), or the plain-text path
when the parameter is absent.  An Except error models a failed debug
assertion. -/
def handlerStats (compile : String → Option Rgx) (sanitize : String → String)
    (prom : Store → Bool → Option Rgx → String) (p : Params) (s : Store) :
    Except String (Code × String) :=
  match filterParam compile p with
  | Except.error diag => Except.ok (Code.BadRequest, diag)
  | Except.ok regex =>
    match buildAllStats s p.usedonly regex with
    | Except.error e => Except.error e
    | Except.ok allStats =>
      let texts := buildTextReadouts s p.usedonly regex
      match p.format with
      | some f =>
        if f = "json" then
          Except.ok (Code.OK,
            serialize (statsAsJson allStats texts s.histograms p.usedonly regex))
        else if f = "prometheus" then
          handlerPrometheusStats prom compile p s
        else
          Except.ok (Code.NotFound, usageBody)
      | none =>
        Except.ok (Code.OK,
          renderTextReadouts sanitize texts ++ renderAllStats allStats ++
            renderHistograms (buildAllHistograms s p.usedonly regex))

/-- Modelled from the spec: the recent-lookups tracker state owned by the
external name-interning component (Stats::SymbolTable): the recorded
(name, count) entries in report order, the tracking capacity, and the total
lookup count. -/
structure SymbolTable where
  recentLookups : List (String × Nat)
  recentLookupCapacity : Nat
  totalLookups : Nat

/-- Right-align a count in an eight-character field (fmt "8d"). -/
def pad8 (n : Nat) : String :=
  let s := toString n
  String.mk (List.replicate (8 - s.length) ' ') ++ s

/-- One line of the recent-lookups table: padded count, space, name. -/
def lookupLine (name : String) (count : Nat) : String :=
  pad8 count ++ " " ++ name ++ "\n"

/-- The recent-lookups table string accumulated by the
getRecentLookups callback. -/
def recentLookupsTable (st : SymbolTable) : String :=
  strConcat (st.recentLookups.map (fun e => lookupLine e.1 e.2))

/-- The disabled-tracking message. -/
def disabledMessage : String :=
  "Lookup tracking is not enabled. Use /stats/recentlookups/enable to enable.\n"

/-- The table header line. -/
def lookupHeader : String := "   Count Lookup\n"

/-- The trailing total line of every recent-lookups report. -/
def totalSuffix (st : SymbolTable) : String :=
  "\ntotal: " ++ toString st.totalLookups ++ "\n"

/-- StatsHandler::handlerStatsRecentLookups: build the table from the
tracker's entries; when the table is empty and the capacity is zero,
replace it by the disabled-tracking message, otherwise emit the header;
always end with the total count. -/
def handlerStatsRecentLookups (st : SymbolTable) : Code × String :=
  let table := recentLookupsTable st
  if table = "" ∧ st.recentLookupCapacity = 0 then
    (Code.OK, disabledMessage ++ totalSuffix st)
  else
    (Code.OK, lookupHeader ++ table ++ totalSuffix st)

/-! ## Order theory for the lexicographic string comparison -/

theorem lexLt_irrefl (l : List Char) : lexLt l l = false := by
  induction l with
  | nil => rfl
  | cons x xs ih => simp [lexLt, ih]

theorem lexLt_trans {a b c : List Char} (hab : lexLt a b = true)
    (hbc : lexLt b c = true) : lexLt a c = true := by
  induction a generalizing b c with
  | nil =>
    cases b with
    | nil => simp [lexLt] at hab
    | cons y ys =>
      cases c with
      | nil => simp [lexLt] at hbc
      | cons z zs => rfl
  | cons x xs ih =>
    cases b with
    | nil => simp [lexLt] at hab
    | cons y ys =>
      cases c with
      | nil => simp [lexLt] at hbc
      | cons z zs =>
        simp only [lexLt] at hab hbc ⊢
        by_cases hxy : x.toNat < y.toNat
        · by_cases hyz : y.toNat < z.toNat
          · simp [Nat.lt_trans hxy hyz]
          · simp only [hyz, if_false] at hbc
            by_cases hzy : z.toNat < y.toNat
            · simp [hzy] at hbc
            · have hyz' : y.toNat = z.toNat := Nat.le_antisymm
                (Nat.le_of_not_lt hzy) (Nat.le_of_not_lt hyz)
              simp [hyz' ▸ hxy]
        · simp only [hxy, if_false] at hab
          by_cases hyx : y.toNat < x.toNat
          · simp [hyx] at hab
          · have hxy' : x.toNat = y.toNat := Nat.le_antisymm
              (Nat.le_of_not_lt hyx) (Nat.le_of_not_lt hxy)
            simp only [hyx, if_false] at hab
            by_cases hyz : y.toNat < z.toNat
            · simp [hxy' ▸ hyz]
            · simp only [hyz, if_false] at hbc
              by_cases hzy : z.toNat < y.toNat
              · simp [hzy] at hbc
              · simp only [hzy, if_false] at hbc
                have hyz' : y.toNat = z.toNat := Nat.le_antisymm
                  (Nat.le_of_not_lt hzy) (Nat.le_of_not_lt hyz)
                have h1 : ¬ x.toNat < z.toNat := by omega
                have h2 : ¬ z.toNat < x.toNat := by omega
                simp only [h1, h2, if_false]
                exact ih hab hbc

theorem char_toNat_inj {x y : Char} (h : x.toNat = y.toNat) : x = y := by
  have := congrArg Char.ofNat h
  rwa [Char.ofNat_toNat, Char.ofNat_toNat] at this

theorem lexLt_resolve {a b : List Char} (h : lexLt a b = false) (hne : a ≠ b) :
    lexLt b a = true := by
  induction a generalizing b with
  | nil =>
    cases b with
    | nil => exact absurd rfl hne
    | cons y ys => simp [lexLt] at h
  | cons x xs ih =>
    cases b with
    | nil => rfl
    | cons y ys =>
      simp only [lexLt] at h ⊢
      by_cases hxy : x.toNat < y.toNat
      · simp [hxy] at h
      · simp only [hxy, if_false] at h
        by_cases hyx : y.toNat < x.toNat
        · simp [hyx]
        · have hxy' : x.toNat = y.toNat := Nat.le_antisymm
            (Nat.le_of_not_lt hyx) (Nat.le_of_not_lt hxy)
          have hc : x = y := char_toNat_inj hxy'
          simp only [hyx, if_false, hxy', Nat.lt_irrefl, if_false] at h ⊢
          refine ih h ?_
          intro hxs
          exact hne (by rw [hc, hxs])

theorem string_toList_inj {a b : String} (h : a.toList = b.toList) : a = b := by
  cases a with
  | mk la =>
    cases b with
    | mk lb =>
      exact congrArg String.mk (by simpa using h)

theorem strLt_trans {a b c : String} (hab : strLt a b = true)
    (hbc : strLt b c = true) : strLt a c = true :=
  lexLt_trans hab hbc

theorem strLt_irrefl (a : String) : strLt a a = false :=
  lexLt_irrefl a.toList

theorem strLt_resolve {a b : String} (h : strLt a b = false) (hne : a ≠ b) :
    strLt b a = true :=
  lexLt_resolve h (fun hl => hne (string_toList_inj hl))

theorem strLt_ne {a b : String} (h : strLt a b = true) : a ≠ b := by
  intro he
  rw [he, strLt_irrefl] at h
  exact Bool.false_ne_true h

theorem strLt_asymm {a b : String} (h : strLt a b = true) : strLt b a = false := by
  by_contra hc
  have hba : strLt b a = true := by
    cases hx : strLt b a with
    | false => exact absurd hx hc
    | true => rfl
  have := strLt_trans h hba
  rw [strLt_irrefl] at this
  exact Bool.false_ne_true this

/-! ## std::map emplace on sorted association lists -/

theorem oalt_none_left (b : Option α) : oalt none b = b := rfl

theorem oalt_some_left (x : α) (b : Option α) : oalt (some x) b = some x := rfl

theorem oalt_none_right (a : Option α) : oalt a none = a := by
  cases a <;> rfl

theorem mem_of_mem_emplace {m : List (String × α)} {k : String} {v : α}
    {x : String × α} (hx : x ∈ emplace k v m) : x = (k, v) ∨ x ∈ m := by
  induction m with
  | nil => simpa [emplace] using hx
  | cons kv rest ih =>
    obtain ⟨k₀, v₀⟩ := kv
    simp only [emplace] at hx
    by_cases h1 : strLt k k₀ = true
    · simp only [h1, if_true] at hx
      rcases List.mem_cons.mp hx with h | h
      · exact Or.inl h
      · exact Or.inr h
    · simp only [h1, if_false] at hx
      by_cases h2 : k = k₀
      · simp only [h2, if_true] at hx
        exact Or.inr hx
      · simp only [h2, if_false] at hx
        rcases List.mem_cons.mp hx with h | h
        · exact Or.inr (List.mem_cons.mpr (Or.inl h))
        · rcases ih h with h' | h'
          · exact Or.inl h'
          · exact Or.inr (List.mem_cons.mpr (Or.inr h'))

theorem pairwise_emplace {m : List (String × α)} {k : String} {v : α}
    (hm : m.Pairwise (fun p q => strLt p.1 q.1 = true)) :
    (emplace k v m).Pairwise (fun p q => strLt p.1 q.1 = true) := by
  induction m with
  | nil => simp [emplace]
  | cons kv rest ih =>
    obtain ⟨k₀, v₀⟩ := kv
    rw [List.pairwise_cons] at hm
    obtain ⟨h1, h2⟩ := hm
    simp only [emplace]
    by_cases hlt : strLt k k₀ = true
    · simp only [hlt, if_true]
      refine List.pairwise_cons.mpr ⟨?_, List.pairwise_cons.mpr ⟨h1, h2⟩⟩
      intro x hx
      rcases List.mem_cons.mp hx with h | h
      · rw [h]
        exact hlt
      · exact strLt_trans hlt (h1 x h)
    · simp only [hlt, if_false]
      by_cases heq : k = k₀
      · simp only [heq, if_true]
        exact List.pairwise_cons.mpr ⟨h1, h2⟩
      · simp only [heq, if_false]
        refine List.pairwise_cons.mpr ⟨?_, ih h2⟩
        intro x hx
        rcases mem_of_mem_emplace hx with h | h
        · rw [h]
          exact strLt_resolve (Bool.eq_false_iff.mpr hlt) heq
        · exact h1 x h

theorem alookup_eq_none {m : List (String × α)} {k : String}
    (h : ∀ x ∈ m, k ≠ x.1) : alookup k m = none := by
  induction m with
  | nil => rfl
  | cons kv rest ih =>
    obtain ⟨k₀, v₀⟩ := kv
    simp only [alookup]
    have hne : k ≠ k₀ := h (k₀, v₀) (List.mem_cons_self _ _)
    simp only [hne, if_false]
    exact ih (fun x hx => h x (List.mem_cons.mpr (Or.inr hx)))

theorem alookup_mem {m : List (String × α)} {k : String} {v : α}
    (h : alookup k m = some v) : (k, v) ∈ m := by
  induction m with
  | nil => simp [alookup] at h
  | cons kv rest ih =>
    obtain ⟨k₀, v₀⟩ := kv
    simp only [alookup] at h
    by_cases heq : k = k₀
    · simp only [heq, if_true] at h
      cases h
      rw [heq]
      exact List.mem_cons_self _ _
    · simp only [heq, if_false] at h
      exact List.mem_cons.mpr (Or.inr (ih h))

theorem alookup_emplace {m : List (String × α)} {k : String} {v : α}
    (hm : m.Pairwise (fun p q => strLt p.1 q.1 = true)) (k' : String) :
    alookup k' (emplace k v m) =
      oalt (alookup k' m) (if k' = k then some v else none) := by
  induction m with
  | nil => simp [emplace, alookup, oalt]
  | cons kv rest ih =>
    obtain ⟨k₀, v₀⟩ := kv
    rw [List.pairwise_cons] at hm
    obtain ⟨h1, h2⟩ := hm
    simp only [emplace]
    by_cases hlt : strLt k k₀ = true
    · simp only [hlt, if_true]
      by_cases heq : k' = k
      · have hnone : alookup k' ((k₀, v₀) :: rest) = none := by
          refine alookup_eq_none ?_
          intro x hx
          rcases List.mem_cons.mp hx with h | h
          · rw [h, heq]
            exact strLt_ne hlt
          · rw [heq]
            exact strLt_ne (strLt_trans hlt (h1 x h))
        rw [hnone, oalt_none_left, if_pos heq]
        simp [alookup, heq]
      · simp only [alookup, heq, if_false]
        rw [oalt_none_right]
    · have hlt' : strLt k k₀ = false := Bool.eq_false_iff.mpr hlt
      simp only [hlt', Bool.false_eq_true, if_false]
      by_cases heq : k = k₀
      · rw [if_pos heq]
        by_cases heq' : k' = k
        · have hk0 : k' = k₀ := heq ▸ heq'
          simp [alookup, hk0, oalt]
        · rw [if_neg heq', oalt_none_right]
      · rw [if_neg heq]
        simp only [alookup]
        by_cases hk0 : k' = k₀
        · simp [hk0, oalt]
        · simp only [hk0, if_false]
          exact ih h2

theorem pairwise_foldl_emplace {l : List (String × α)}
    {init : List (String × α)}
    (h : init.Pairwise (fun p q => strLt p.1 q.1 = true)) :
    (l.foldl (fun m kv => emplace kv.1 kv.2 m) init).Pairwise
      (fun p q => strLt p.1 q.1 = true) := by
  induction l generalizing init with
  | nil => exact h
  | cons x xs ih => exact ih (pairwise_emplace h)

theorem mem_foldl_emplace {l : List (String × α)} {init : List (String × α)}
    {x : String × α}
    (hx : x ∈ l.foldl (fun m kv => emplace kv.1 kv.2 m) init) :
    x ∈ init ∨ x ∈ l := by
  induction l generalizing init with
  | nil => exact Or.inl hx
  | cons y ys ih =>
    rcases ih hx with h | h
    · rcases mem_of_mem_emplace h with h' | h'
      · exact Or.inr (List.mem_cons.mpr (Or.inl (by rw [h'])))
      · exact Or.inl h'
    · exact Or.inr (List.mem_cons.mpr (Or.inr h))

theorem alookup_foldl_emplace {l : List (String × α)}
    {init : List (String × α)} {k : String}
    (h : init.Pairwise (fun p q => strLt p.1 q.1 = true)) :
    alookup k (l.foldl (fun m kv => emplace kv.1 kv.2 m) init) =
      oalt (alookup k init)
        ((l.find? (fun kv => kv.1 == k)).map Prod.snd) := by
  induction l generalizing init with
  | nil => simp [oalt_none_right]
  | cons x xs ih =>
    simp only [List.foldl_cons]
    rw [ih (pairwise_emplace h), alookup_emplace h]
    by_cases heq : x.1 = k
    · have hk : k = x.1 := heq.symm
      simp only [List.find?_cons, heq, beq_self_eq_true, if_pos hk]
      cases halt : alookup k init with
      | some w => simp [oalt]
      | none => simp [oalt]
    · have hk : ¬ k = x.1 := fun hh => heq hh.symm
      have hbeq : (x.1 == k) = false := beq_eq_false_iff_ne.mpr heq
      simp only [List.find?_cons, hbeq, if_neg hk]
      rw [oalt_none_right]

/-! ## std::multimap emplace on sorted association lists -/

theorem mem_of_mem_memplace {m : List (String × α)} {k : String} {v : α}
    {x : String × α} (hx : x ∈ memplace k v m) : x = (k, v) ∨ x ∈ m := by
  induction m with
  | nil => simpa [memplace] using hx
  | cons kv rest ih =>
    obtain ⟨k₀, v₀⟩ := kv
    simp only [memplace] at hx
    by_cases h1 : strLt k k₀ = true
    · simp only [h1, if_true] at hx
      rcases List.mem_cons.mp hx with h | h
      · exact Or.inl h
      · exact Or.inr h
    · have h1' : strLt k k₀ = false := Bool.eq_false_iff.mpr h1
      simp only [h1', Bool.false_eq_true, if_false] at hx
      rcases List.mem_cons.mp hx with h | h
      · exact Or.inr (List.mem_cons.mpr (Or.inl h))
      · rcases ih h with h' | h'
        · exact Or.inl h'
        · exact Or.inr (List.mem_cons.mpr (Or.inr h'))

theorem pairwise_le_memplace {m : List (String × α)} {k : String} {v : α}
    (hm : m.Pairwise (fun p q => strLt q.1 p.1 = false)) :
    (memplace k v m).Pairwise (fun p q => strLt q.1 p.1 = false) := by
  induction m with
  | nil => simp [memplace]
  | cons kv rest ih =>
    obtain ⟨k₀, v₀⟩ := kv
    rw [List.pairwise_cons] at hm
    obtain ⟨h1, h2⟩ := hm
    simp only [memplace]
    by_cases hlt : strLt k k₀ = true
    · simp only [hlt, if_true]
      refine List.pairwise_cons.mpr ⟨?_, List.pairwise_cons.mpr ⟨h1, h2⟩⟩
      intro x hx
      rcases List.mem_cons.mp hx with h | h
      · rw [h]
        exact strLt_asymm hlt
      · cases hxk : strLt x.1 k with
        | false => rfl
        | true =>
          have := strLt_trans hxk hlt
          rw [h1 x h] at this
          exact absurd this Bool.false_ne_true
    · have hlt' : strLt k k₀ = false := Bool.eq_false_iff.mpr hlt
      simp only [hlt', Bool.false_eq_true, if_false]
      refine List.pairwise_cons.mpr ⟨?_, ih h2⟩
      intro x hx
      rcases mem_of_mem_memplace hx with h | h
      · rw [h]
        exact hlt'
      · exact h1 x h

theorem filter_eq_nil_of_keys_ne {m : List (String × α)} {n : String}
    (h : ∀ x ∈ m, x.1 ≠ n) :
    m.filter (fun kv => kv.1 == n) = [] := by
  induction m with
  | nil => rfl
  | cons kv rest ih =>
    have hk : (kv.1 == n) = false :=
      beq_eq_false_iff_ne.mpr (h kv (List.mem_cons_self _ _))
    simp only [List.filter_cons, hk, Bool.false_eq_true, if_false]
    exact ih (fun x hx => h x (List.mem_cons.mpr (Or.inr hx)))

theorem filter_memplace {m : List (String × α)} {k : String} {v : α}
    (hm : m.Pairwise (fun p q => strLt q.1 p.1 = false)) (n : String) :
    (memplace k v m).filter (fun kv => kv.1 == n) =
      (if k = n then m.filter (fun kv => kv.1 == n) ++ [(k, v)]
       else m.filter (fun kv => kv.1 == n)) := by
  induction m with
  | nil =>
    by_cases hk : k = n
    · simp [memplace, List.filter_cons, hk]
    · simp [memplace, List.filter_cons, beq_eq_false_iff_ne.mpr hk, hk]
  | cons kv rest ih =>
    obtain ⟨k₀, v₀⟩ := kv
    rw [List.pairwise_cons] at hm
    obtain ⟨h1, h2⟩ := hm
    simp only [memplace]
    by_cases hlt : strLt k k₀ = true
    · simp only [hlt, if_true]
      by_cases hk : k = n
      · have hrest : ((k₀, v₀) :: rest).filter (fun kv => kv.1 == n) = [] := by
          refine filter_eq_nil_of_keys_ne ?_
          intro x hx
          rcases List.mem_cons.mp hx with h | h
          · rw [h]
            intro hkn
            exact strLt_ne hlt (hk.trans hkn.symm)
          · intro hkn
            have hxk : strLt x.1 k₀ = false := h1 x h
            have : strLt x.1 k₀ = true := by
              rw [show x.1 = k from hkn.trans hk.symm]
              exact hlt
            rw [hxk] at this
            exact absurd this Bool.false_ne_true
        rw [if_pos hk]
        simp only [List.filter_cons, show (k == n) = true from beq_iff_eq.mpr hk,
          if_true, hrest]
        rfl
      · rw [if_neg hk]
        simp only [List.filter_cons,
          show (k == n) = false from beq_eq_false_iff_ne.mpr hk,
          Bool.false_eq_true, if_false]
    · have hlt' : strLt k k₀ = false := Bool.eq_false_iff.mpr hlt
      simp only [hlt', Bool.false_eq_true, if_false]
      simp only [List.filter_cons]
      rw [ih h2]
      by_cases hk : k = n
      · rw [if_pos hk, if_pos hk]
        by_cases hk0 : (k₀ == n) = true
        · simp only [hk0, if_true]
          rfl
        · have hk0' : (k₀ == n) = false := Bool.eq_false_iff.mpr hk0
          simp only [hk0', Bool.false_eq_true, if_false]
      · rw [if_neg hk, if_neg hk]

theorem pairwise_le_foldl_memplace {l : List (String × α)}
    {init : List (String × α)}
    (h : init.Pairwise (fun p q => strLt q.1 p.1 = false)) :
    (l.foldl (fun m kv => memplace kv.1 kv.2 m) init).Pairwise
      (fun p q => strLt q.1 p.1 = false) := by
  induction l generalizing init with
  | nil => exact h
  | cons x xs ih => exact ih (pairwise_le_memplace h)

theorem filter_foldl_memplace {l : List (String × α)}
    {init : List (String × α)} {n : String}
    (h : init.Pairwise (fun p q => strLt q.1 p.1 = false)) :
    (l.foldl (fun m kv => memplace kv.1 kv.2 m) init).filter
        (fun kv => kv.1 == n) =
      init.filter (fun kv => kv.1 == n) ++ l.filter (fun kv => kv.1 == n) := by
  induction l generalizing init with
  | nil => simp
  | cons x xs ih =>
    simp only [List.foldl_cons]
    rw [ih (pairwise_le_memplace h), filter_memplace h n]
    by_cases hk : x.1 = n
    · rw [if_pos hk]
      simp only [List.filter_cons, show (x.1 == n) = true from beq_iff_eq.mpr hk,
        if_true, List.append_assoc, List.singleton_append]
    · rw [if_neg hk]
      simp only [List.filter_cons,
        show (x.1 == n) = false from beq_eq_false_iff_ne.mpr hk,
        Bool.false_eq_true, if_false]

/-! ## Loop bridging lemmas -/

theorem foldl_filter_map {β γ δ : Type} (l : List β) (p : β → Bool)
    (g : β → γ) (f : δ → γ → δ) (init : δ) :
    l.foldl (fun m c => if p c then f m (g c) else m) init =
      ((l.filter p).map g).foldl f init := by
  induction l generalizing init with
  | nil => rfl
  | cons x xs ih =>
    simp only [List.foldl_cons, List.filter_cons]
    cases hp : p x with
    | true =>
      simp only [if_true, List.map_cons, List.foldl_cons]
      exact ih (f init (g x))
    | false =>
      simp only [Bool.false_eq_true, if_false]
      exact ih init

theorem gaugeFold_ok {u : Bool} {r : Option Rgx} {l : List Gauge}
    (hno : ∀ g ∈ l, shouldShowMetric g.used g.name u r = true →
      g.importMode ≠ ImportMode.uninitialized)
    (m : List (String × Nat)) :
    gaugeFold u r l m = Except.ok
      (((l.filter (fun g => shouldShowMetric g.used g.name u r)).map
          (fun g => (g.name, g.value))).foldl
        (fun m kv => emplace kv.1 kv.2 m) m) := by
  induction l generalizing m with
  | nil => rfl
  | cons g gs ih =>
    simp only [gaugeFold, List.filter_cons]
    cases hp : shouldShowMetric g.used g.name u r with
    | true =>
      have hne : g.importMode ≠ ImportMode.uninitialized :=
        hno g (List.mem_cons_self _ _) hp
      simp only [if_true, if_neg hne, List.map_cons, List.foldl_cons]
      exact ih (fun g' hg' => hno g' (List.mem_cons.mpr (Or.inr hg'))) _
    | false =>
      simp only [Bool.false_eq_true, if_false]
      exact ih (fun g' hg' => hno g' (List.mem_cons.mpr (Or.inr hg'))) m

theorem gaugeFold_error {u : Bool} {r : Option Rgx} {l : List Gauge}
    (hyes : ∃ g ∈ l, shouldShowMetric g.used g.name u r = true ∧
      g.importMode = ImportMode.uninitialized)
    (m : List (String × Nat)) :
    gaugeFold u r l m = Except.error assertMsg := by
  induction l generalizing m with
  | nil => simp at hyes
  | cons g gs ih =>
    obtain ⟨g', hg', hp', hu'⟩ := hyes
    simp only [gaugeFold]
    rcases List.mem_cons.mp hg' with he | hmem
    · rw [he] at hp' hu'
      simp [hp', hu']
    · cases hp : shouldShowMetric g.used g.name u r with
      | true =>
        simp only [if_true]
        by_cases hu : g.importMode = ImportMode.uninitialized
        · simp [hu]
        · simp only [if_neg hu]
          exact ih ⟨g', hmem, hp', hu'⟩ _
      | false =>
        simp only [Bool.false_eq_true, if_false]
        exact ih ⟨g', hmem, hp', hu'⟩ m

theorem gaugeFold_ok_no_uninit {u : Bool} {r : Option Rgx} {l : List Gauge}
    {m m' : List (String × Nat)} (h : gaugeFold u r l m = Except.ok m') :
    ∀ g ∈ l, shouldShowMetric g.used g.name u r = true →
      g.importMode ≠ ImportMode.uninitialized := by
  intro g hg hp hu
  rw [gaugeFold_error ⟨g, hg, hp, hu⟩ m] at h
  exact Except.noConfusion h

theorem buildAllStats_ok {s : Store} {u : Bool} {r : Option Rgx}
    (hno : ∀ g ∈ s.gauges, shouldShowMetric g.used g.name u r = true →
      g.importMode ≠ ImportMode.uninitialized) :
    buildAllStats s u r = Except.ok
      ((((s.counters.filter (fun c => shouldShowMetric c.used c.name u r)).map
            (fun c => (c.name, c.value)) ++
          (s.gauges.filter (fun g => shouldShowMetric g.used g.name u r)).map
            (fun g => (g.name, g.value))).foldl
        (fun m kv => emplace kv.1 kv.2 m) [])) := by
  unfold buildAllStats
  have hc : s.counters.foldl
      (fun m c =>
        if shouldShowMetric c.used c.name u r = true then
          emplace c.name c.value m
        else m) [] =
      (((s.counters.filter (fun c => shouldShowMetric c.used c.name u r)).map
          (fun c => (c.name, c.value))).foldl
        (fun m kv => emplace kv.1 kv.2 m) []) :=
    foldl_filter_map s.counters (fun c => shouldShowMetric c.used c.name u r)
      (fun c => (c.name, c.value)) (fun m kv => emplace kv.1 kv.2 m) []
  rw [hc, gaugeFold_ok hno, List.foldl_append]

theorem buildAllStats_ok_inv {s : Store} {u : Bool} {r : Option Rgx}
    {m : List (String × Nat)} (h : buildAllStats s u r = Except.ok m) :
    (∀ g ∈ s.gauges, shouldShowMetric g.used g.name u r = true →
      g.importMode ≠ ImportMode.uninitialized) ∧
    m = (((s.counters.filter (fun c => shouldShowMetric c.used c.name u r)).map
            (fun c => (c.name, c.value)) ++
          (s.gauges.filter (fun g => shouldShowMetric g.used g.name u r)).map
            (fun g => (g.name, g.value))).foldl
        (fun m kv => emplace kv.1 kv.2 m) []) := by
  have hno : ∀ g ∈ s.gauges, shouldShowMetric g.used g.name u r = true →
      g.importMode ≠ ImportMode.uninitialized := by
    unfold buildAllStats at h
    exact gaugeFold_ok_no_uninit h
  refine ⟨hno, ?_⟩
  rw [buildAllStats_ok hno] at h
  exact (Except.ok.inj h).symm

theorem buildTextReadouts_eq (s : Store) (u : Bool) (r : Option Rgx) :
    buildTextReadouts s u r =
      (((s.textReadouts.filter
            (fun t => shouldShowMetric t.used t.name u r)).map
          (fun t => (t.name, t.value))).foldl
        (fun m kv => emplace kv.1 kv.2 m) []) := by
  unfold buildTextReadouts
  exact foldl_filter_map s.textReadouts
    (fun t => shouldShowMetric t.used t.name u r)
    (fun t => (t.name, t.value)) (fun m kv => emplace kv.1 kv.2 m) []

theorem buildAllHistograms_eq (s : Store) (u : Bool) (r : Option Rgx) :
    buildAllHistograms s u r =
      (((s.histograms.filter
            (fun h => shouldShowMetric h.used h.name u r)).map
          (fun h => (h.name, h.quantileSummary))).foldl
        (fun m kv => memplace kv.1 kv.2 m) []) := by
  unfold buildAllHistograms
  exact foldl_filter_map s.histograms
    (fun h => shouldShowMetric h.used h.name u r)
    (fun h => (h.name, h.quantileSummary)) (fun m kv => memplace kv.1 kv.2 m) []

theorem histogramJsonFold (u : Bool) (r : Option Rgx)
    (l : List ParentHistogram) (b : Bool) (acc : List JValue) :
    l.foldl (histogramJsonStep u r) (b, acc) =
      (b || l.any (fun h => shouldShowMetric h.used h.name u r),
       acc ++ (l.filter (fun h => shouldShowMetric h.used h.name u r)).map
         computedQuantileObj) := by
  induction l generalizing b acc with
  | nil => simp
  | cons h hs ih =>
    simp only [List.foldl_cons, List.any_cons, List.filter_cons,
      histogramJsonStep]
    cases hp : shouldShowMetric h.used h.name u r with
    | true =>
      simp only [if_true, Bool.true_or, List.map_cons]
      rw [ih]
      simp
    | false =>
      simp only [Bool.false_eq_true, if_false, Bool.false_or]
      rw [ih]

/-! ## Dispatch lemmas for handlerStats -/

theorem handlerStats_badRequest {compile : String → Option Rgx}
    {sanitize : String → String} {prom : Store → Bool → Option Rgx → String}
    {p : Params} {diag : String}
    (hd : filterParam compile p = Except.error diag) (s : Store) :
    handlerStats compile sanitize prom p s =
      Except.ok (Code.BadRequest, diag) := by
  simp only [handlerStats, hd]

theorem handlerPrometheusStats_badRequest {compile : String → Option Rgx}
    {prom : Store → Bool → Option Rgx → String} {p : Params} {diag : String}
    (hd : filterParam compile p = Except.error diag) (s : Store) :
    handlerPrometheusStats prom compile p s =
      Except.ok (Code.BadRequest, diag) := by
  simp only [handlerPrometheusStats, hd]

theorem handlerStats_json {compile : String → Option Rgx}
    {sanitize : String → String} {prom : Store → Bool → Option Rgx → String}
    {p : Params} {s : Store} {r : Option Rgx} {m : List (String × Nat)}
    (hfmt : p.format = some "json")
    (hr : filterParam compile p = Except.ok r)
    (hm : buildAllStats s p.usedonly r = Except.ok m) :
    handlerStats compile sanitize prom p s =
      Except.ok (Code.OK,
        serialize (statsAsJson m (buildTextReadouts s p.usedonly r)
          s.histograms p.usedonly r)) := by
  simp only [handlerStats, hr, hm, hfmt]
  simp

theorem handlerStats_notFound {compile : String → Option Rgx}
    {sanitize : String → String} {prom : Store → Bool → Option Rgx → String}
    {p : Params} {s : Store} {r : Option Rgx} {m : List (String × Nat)}
    {f : String} (hfmt : p.format = some f) (hj : f ≠ "json")
    (hp : f ≠ "prometheus")
    (hr : filterParam compile p = Except.ok r)
    (hm : buildAllStats s p.usedonly r = Except.ok m) :
    handlerStats compile sanitize prom p s =
      Except.ok (Code.NotFound, usageBody) := by
  simp only [handlerStats, hr, hm, hfmt]
  simp [hj, hp]

theorem handlerStats_plain {compile : String → Option Rgx}
    {sanitize : String → String} {prom : Store → Bool → Option Rgx → String}
    {p : Params} {s : Store} {r : Option Rgx} {m : List (String × Nat)}
    (hfmt : p.format = none)
    (hr : filterParam compile p = Except.ok r)
    (hm : buildAllStats s p.usedonly r = Except.ok m) :
    handlerStats compile sanitize prom p s =
      Except.ok (Code.OK,
        renderTextReadouts sanitize (buildTextReadouts s p.usedonly r) ++
          renderAllStats m ++
          renderHistograms (buildAllHistograms s p.usedonly r)) := by
  simp only [handlerStats, hr, hm, hfmt]

theorem handlerStats_assert {compile : String → Option Rgx}
    {sanitize : String → String} {prom : Store → Bool → Option Rgx → String}
    {p : Params} {s : Store} {r : Option Rgx} {e : String}
    (hr : filterParam compile p = Except.ok r)
    (hm : buildAllStats s p.usedonly r = Except.error e) :
    handlerStats compile sanitize prom p s = Except.error e := by
  simp only [handlerStats, hr, hm]

/-! ## Recent-lookups table lemmas -/

theorem lookupLine_length_pos (n : String) (c : Nat) :
    0 < (lookupLine n c).length := by
  unfold lookupLine
  rw [String.length_append, String.length_append, String.length_append]
  have h1 : ("\n" : String).length = 1 := rfl
  omega

theorem recentLookupsTable_eq_empty_iff (st : SymbolTable) :
    recentLookupsTable st = "" ↔ st.recentLookups = [] := by
  unfold recentLookupsTable
  cases h : st.recentLookups with
  | nil => simp [strConcat]
  | cons e rest =>
    simp only [List.map_cons]
    constructor
    · intro hc
      have hlen := congrArg String.length hc
      rw [show strConcat (lookupLine e.1 e.2 ::
          rest.map (fun e => lookupLine e.1 e.2)) =
          lookupLine e.1 e.2 ++
            strConcat (rest.map (fun e => lookupLine e.1 e.2)) from rfl,
        String.length_append] at hlen
      have := lookupLine_length_pos e.1 e.2
      simp at hlen
      omega
    · intro hc
      exact List.noConfusion hc

/-! ## Claim theorems -/

/-- C3: for every request whose name-filter pattern fails to compile, both
the /stats handler and the Prometheus handler return BadRequest with the
diagnostic body, and the result is the same for every store: no counter,
gauge, text readout or histogram is read or emitted. -/
theorem claim3_bad_regex_bad_request (compile : String → Option Rgx)
    (sanitize : String → String) (prom : Store → Bool → Option Rgx → String)
    (p : Params) (pat : String) (hf : p.filter = some pat)
    (hc : compile pat = none) :
    (∀ s : Store, handlerStats compile sanitize prom p s =
      Except.ok (Code.BadRequest, invalidRegexBody pat)) ∧
    (∀ s : Store, handlerPrometheusStats prom compile p s =
      Except.ok (Code.BadRequest, invalidRegexBody pat)) := by
  have hd : filterParam compile p = Except.error (invalidRegexBody pat) := by
    simp only [filterParam, hf, hc]
  exact ⟨fun s => handlerStats_badRequest hd s,
    fun s => handlerPrometheusStats_badRequest hd s⟩

/-- Witness for C3 at the pattern "(" rejected by the compiler. -/
theorem claim3_witness :
    (∀ s : Store, handlerStats (fun _ => none) (fun v => v) (fun _ _ _ => "")
        ⟨false, some "(", none⟩ s =
      Except.ok (Code.BadRequest, invalidRegexBody "(")) ∧
    (∀ s : Store, handlerPrometheusStats (fun _ _ _ => "") (fun _ => none)
        ⟨false, some "(", none⟩ s =
      Except.ok (Code.BadRequest, invalidRegexBody "(")) :=
  claim3_bad_regex_bad_request (fun _ => none) (fun v => v) (fun _ _ _ => "")
    ⟨false, some "(", none⟩ "(" rfl rfl

/-- C4: for every request whose format value is neither json nor
prometheus, the /stats handler returns NotFound with the usage-hint body
(which begins with the one-line usage hint), and no text readout, scalar
stat or histogram line appears: the body is exactly the usage hint. -/
theorem claim4_unknown_format_not_found (compile : String → Option Rgx)
    (sanitize : String → String) (prom : Store → Bool → Option Rgx → String)
    (p : Params) (s : Store) (f : String) (r : Option Rgx)
    (hfmt : p.format = some f) (hj : f ≠ "json") (hp : f ≠ "prometheus")
    (hr : filterParam compile p = Except.ok r)
    (hno : ∀ g ∈ s.gauges, shouldShowMetric g.used g.name p.usedonly r = true →
      g.importMode ≠ ImportMode.uninitialized) :
    handlerStats compile sanitize prom p s =
      Except.ok (Code.NotFound, usageBody) ∧
    (∃ rest, usageBody =
      "usage: /stats?format=json  or /stats?format=prometheus \n" ++ rest) :=
  ⟨handlerStats_notFound hfmt hj hp hr (buildAllStats_ok hno), ⟨"\n", rfl⟩⟩

/-- Witness for C4 at format=xml on the empty store. -/
theorem claim4_witness :
    handlerStats (fun _ => none) (fun v => v) (fun _ _ _ => "")
        ⟨false, none, some "xml"⟩ ⟨[], [], [], []⟩ =
      Except.ok (Code.NotFound, usageBody) ∧
    (∃ rest, usageBody =
      "usage: /stats?format=json  or /stats?format=prometheus \n" ++ rest) :=
  claim4_unknown_format_not_found (fun _ => none) (fun v => v)
    (fun _ _ _ => "") ⟨false, none, some "xml"⟩ ⟨[], [], [], []⟩ "xml" none
    rfl (by decide) (by decide) rfl (by decide)

/-- C8: a gauge that passes the filter is never in uninitialized import
mode when it reaches the all_stats map: if some passing gauge is
uninitialized the aggregation stops with the assertion failure (it is not
silently inserted or dropped), and whenever aggregation succeeds every
passing gauge had a proper import mode. -/
theorem claim8_uninitialized_gauge_assert (s : Store) (u : Bool)
    (r : Option Rgx) :
    ((∃ g ∈ s.gauges, shouldShowMetric g.used g.name u r = true ∧
        g.importMode = ImportMode.uninitialized) →
      buildAllStats s u r = Except.error assertMsg) ∧
    (∀ m, buildAllStats s u r = Except.ok m →
      ∀ g ∈ s.gauges, shouldShowMetric g.used g.name u r = true →
        g.importMode ≠ ImportMode.uninitialized) := by
  constructor
  · intro hyes
    unfold buildAllStats
    exact gaugeFold_error hyes _
  · intro m hm
    exact (buildAllStats_ok_inv hm).1

/-- Witness for C8: one used uninitialized gauge makes aggregation fail on
the assertion. -/
theorem claim8_witness :
    buildAllStats ⟨[], [⟨"g", 1, true, ImportMode.uninitialized⟩], [], []⟩
        true none =
      Except.error assertMsg :=
  (claim8_uninitialized_gauge_assert
    ⟨[], [⟨"g", 1, true, ImportMode.uninitialized⟩], [], []⟩ true none).1
    (by decide)

/-- C9: the recent-lookups report shows the disabled-tracking message
instead of a table exactly when the tracker has no entries and capacity
zero; otherwise it shows the header and one line per entry; either way the
body ends with the total lookup count. -/
theorem claim9_recent_lookups_report (st : SymbolTable) :
    ((st.recentLookups = [] ∧ st.recentLookupCapacity = 0) →
      handlerStatsRecentLookups st =
        (Code.OK, disabledMessage ++ totalSuffix st)) ∧
    (¬(st.recentLookups = [] ∧ st.recentLookupCapacity = 0) →
      handlerStatsRecentLookups st =
        (Code.OK, lookupHeader ++
          strConcat (st.recentLookups.map (fun e => lookupLine e.1 e.2)) ++
          totalSuffix st)) := by
  constructor
  · rintro ⟨h1, h2⟩
    unfold handlerStatsRecentLookups
    rw [if_pos ⟨(recentLookupsTable_eq_empty_iff st).mpr h1, h2⟩]
  · intro hn
    unfold handlerStatsRecentLookups
    rw [if_neg (fun hc =>
      hn ⟨(recentLookupsTable_eq_empty_iff st).mp hc.1, hc.2⟩)]
    rfl

/-- Witness for C9: capacity zero and no entries yields the disabled
message. -/
theorem claim9_witness :
    handlerStatsRecentLookups ⟨[], 0, 5⟩ =
      (Code.OK, disabledMessage ++ totalSuffix ⟨[], 0, 5⟩) :=
  (claim9_recent_lookups_report ⟨[], 0, 5⟩).1 ⟨rfl, rfl⟩

/-- C10: in the combined counter-then-gauge aggregation, a later metric
with an already-present name is silently discarded: aggregation succeeds,
and every name maps to the value of the first passing metric carrying it
in the counters-then-gauges enumeration. -/
theorem claim10_first_metric_wins (s : Store) (u : Bool) (r : Option Rgx)
    (hno : ∀ g ∈ s.gauges, shouldShowMetric g.used g.name u r = true →
      g.importMode ≠ ImportMode.uninitialized) :
    ∃ m, buildAllStats s u r = Except.ok m ∧
      ∀ k, alookup k m =
        (((s.counters.filter (fun c => shouldShowMetric c.used c.name u r)).map
            (fun c => (c.name, c.value)) ++
          (s.gauges.filter (fun g => shouldShowMetric g.used g.name u r)).map
            (fun g => (g.name, g.value))).find?
          (fun kv => kv.1 == k)).map Prod.snd := by
  refine ⟨_, buildAllStats_ok hno, ?_⟩
  intro k
  rw [alookup_foldl_emplace List.Pairwise.nil]
  rfl

/-- Witness for C10: a used counter and a used gauge share the name dup;
the counter value wins. -/
theorem claim10_witness :
    ∃ m, buildAllStats
        ⟨[⟨"dup", 7, true⟩], [⟨"dup", 9, true, ImportMode.accumulate⟩],
         [], []⟩ false none =
      Except.ok m ∧
      ∀ k, alookup k m =
        ((((⟨[⟨"dup", 7, true⟩],
             [⟨"dup", 9, true, ImportMode.accumulate⟩], [], []⟩ :
              Store).counters.filter
              (fun c => shouldShowMetric c.used c.name false none)).map
            (fun c => (c.name, c.value)) ++
          ((⟨[⟨"dup", 7, true⟩],
             [⟨"dup", 9, true, ImportMode.accumulate⟩], [], []⟩ :
              Store).gauges.filter
              (fun g => shouldShowMetric g.used g.name false none)).map
            (fun g => (g.name, g.value))).find?
          (fun kv => kv.1 == k)).map Prod.snd :=
  claim10_first_metric_wins
    ⟨[⟨"dup", 7, true⟩], [⟨"dup", 9, true, ImportMode.accumulate⟩], [], []⟩
    false none (by decide)

/-- C1: in the JSON document, the histograms wrapper object is appended as
the last element of the stats array exactly when at least one histogram
passes the filter; when none passes, the stats array consists of the text
readout and scalar objects only, none of which is a histograms wrapper
(each has exactly the fields name and value). -/
theorem claim1_json_histogram_wrapper_iff (allStats : List (String × Nat))
    (texts : List (String × String)) (hists : List ParentHistogram)
    (u : Bool) (r : Option Rgx) :
    (hists.any (fun h => shouldShowMetric h.used h.name u r) = true →
      statsAsJson allStats texts hists u r =
        JValue.obj [("stats", JValue.arr
          (texts.map textReadoutObj ++ allStats.map statObj ++
            [histogramsWrapper
              ((hists.filter (fun h => shouldShowMetric h.used h.name u r)).map
                computedQuantileObj)]))]) ∧
    (hists.any (fun h => shouldShowMetric h.used h.name u r) = false →
      statsAsJson allStats texts hists u r =
        JValue.obj [("stats", JValue.arr
          (texts.map textReadoutObj ++ allStats.map statObj))]) ∧
    (∀ j ∈ texts.map textReadoutObj ++ allStats.map statObj,
      ∃ fs, j = JValue.obj fs ∧ fs.map Prod.fst = ["name", "value"]) := by
  refine ⟨?_, ?_, ?_⟩
  · intro hany
    simp only [statsAsJson]
    rw [histogramJsonFold]
    simp [hany]
  · intro hnone
    simp only [statsAsJson]
    rw [histogramJsonFold]
    simp [hnone]
  · intro j hj
    rcases List.mem_append.mp hj with h | h
    · obtain ⟨kv, hkv, he⟩ := List.mem_map.mp h
      exact ⟨_, he.symm, rfl⟩
    · obtain ⟨kv, hkv, he⟩ := List.mem_map.mp h
      exact ⟨_, he.symm, rfl⟩

/-- Witness for C1: a single passing histogram makes the wrapper the last
stats element. -/
theorem claim1_witness :
    statsAsJson [] [] [⟨"h", true, ⟨[], []⟩, ⟨[], []⟩, "s"⟩] false none =
      JValue.obj [("stats", JValue.arr
        [histogramsWrapper
          [computedQuantileObj ⟨"h", true, ⟨[], []⟩, ⟨[], []⟩, "s"⟩]])] :=
  (claim1_json_histogram_wrapper_iff [] []
    [⟨"h", true, ⟨[], []⟩, ⟨[], []⟩, "s"⟩] false none).1 rfl

/-- C2: under the invariant that the interval and cumulative computed
quantile sequences have equal length (equal to the supported cut-point
count), the values array of a histogram's JSON entry pairs the two
sequences index by index — one record per supported cut-point — and each
interval/cumulative field is an explicit null exactly for a not-a-number
value, else the numeric value itself. -/
theorem claim2_quantile_merge (h : ParentHistogram)
    (h1 : h.intervalStatistics.computedQuantiles.length =
      h.intervalStatistics.supportedQuantiles.length)
    (h2 : h.cumulativeStatistics.computedQuantiles.length =
      h.intervalStatistics.computedQuantiles.length) :
    (computedQuantileValues h).length =
      h.intervalStatistics.supportedQuantiles.length ∧
    computedQuantileValues h =
      List.zipWith
        (fun iv cv => JValue.obj
          [("cumulative", hvalToJson cv), ("interval", hvalToJson iv)])
        h.intervalStatistics.computedQuantiles
        h.cumulativeStatistics.computedQuantiles ∧
    (∀ x, hvalToJson x = JValue.null ↔ x = HVal.nan) ∧
    (∀ q, hvalToJson (HVal.num q) = JValue.num q) := by
  refine ⟨?_, ?_, ?_, fun q => rfl⟩
  · simp [computedQuantileValues]
  · refine List.ext_getElem ?_ ?_
    · simp [computedQuantileValues, h1, h2]
    · intro i hi hj
      simp only [computedQuantileValues, List.getElem_map,
        List.getElem_range] at hi ⊢
      rw [List.getElem_zipWith]
      simp only [List.length_map, List.length_range] at hi
      rw [List.getD_eq_getElem _ _ (by omega),
        List.getD_eq_getElem _ _ (by omega)]
  · intro x
    cases x <;> simp [hvalToJson]

/-- Witness for C2 on a one-cut-point histogram with a NaN interval
value. -/
theorem claim2_witness :
    (computedQuantileValues
        ⟨"h", true, ⟨[0], [HVal.nan]⟩, ⟨[0], [HVal.num 3]⟩, "s"⟩).length =
      (⟨"h", true, ⟨[0], [HVal.nan]⟩, ⟨[0], [HVal.num 3]⟩, "s"⟩ :
        ParentHistogram).intervalStatistics.supportedQuantiles.length ∧
    computedQuantileValues
        ⟨"h", true, ⟨[0], [HVal.nan]⟩, ⟨[0], [HVal.num 3]⟩, "s"⟩ =
      List.zipWith
        (fun iv cv => JValue.obj
          [("cumulative", hvalToJson cv), ("interval", hvalToJson iv)])
        [HVal.nan] [HVal.num 3] ∧
    (∀ x, hvalToJson x = JValue.null ↔ x = HVal.nan) ∧
    (∀ q, hvalToJson (HVal.num q) = JValue.num q) :=
  claim2_quantile_merge
    ⟨"h", true, ⟨[0], [HVal.nan]⟩, ⟨[0], [HVal.num 3]⟩, "s"⟩ rfl rfl

/-- C5 counterexample: a store enumerating its histograms as b then a (both
used, no filter, plain format) renders the a line before the b line — the
summary lines are not in the store's original enumeration order. -/
theorem claim5_counterexample :
    (⟨[], [], [], [⟨"b", true, ⟨[], []⟩, ⟨[], []⟩, "qb"⟩,
        ⟨"a", true, ⟨[], []⟩, ⟨[], []⟩, "qa"⟩]⟩ : Store).histograms.map
      ParentHistogram.name = ["b", "a"] ∧
    handlerStats (fun _ => none) (fun v => v) (fun _ _ _ => "")
        ⟨false, none, none⟩
        ⟨[], [], [], [⟨"b", true, ⟨[], []⟩, ⟨[], []⟩, "qb"⟩,
          ⟨"a", true, ⟨[], []⟩, ⟨[], []⟩, "qa"⟩]⟩ =
      Except.ok (Code.OK, "a: qa\nb: qb\n") :=
  ⟨rfl, rfl⟩

/-- C5 as amended: the plain-text histogram lines are the passing
histograms sorted lexicographically by name, ties keeping the original
enumeration order (a stable sort), with duplicate names preserved and not
deduplicated: the multimap is weakly sorted by name and, for every name,
lists exactly the passing occurrences of that name in enumeration
order. -/
theorem claim5_amended_sorted_stable (s : Store) (u : Bool) (r : Option Rgx) :
    (buildAllHistograms s u r).Pairwise (fun p q => strLt q.1 p.1 = false) ∧
    (∀ n, (buildAllHistograms s u r).filter (fun kv => kv.1 == n) =
      ((s.histograms.filter (fun h => shouldShowMetric h.used h.name u r)).map
        (fun h => (h.name, h.quantileSummary))).filter
        (fun kv => kv.1 == n)) ∧
    renderHistograms (buildAllHistograms s u r) =
      strConcat ((buildAllHistograms s u r).map
        (fun kv => kv.1 ++ ": " ++ kv.2 ++ "\n")) := by
  refine ⟨?_, ?_, rfl⟩
  · rw [buildAllHistograms_eq]
    exact pairwise_le_foldl_memplace List.Pairwise.nil
  · intro n
    rw [buildAllHistograms_eq, filter_foldl_memplace List.Pairwise.nil]
    simp

/-- C6: for every format=json request the handler serializes the document
whose single stats field lists the name-sorted text readout objects first
(value a JSON string) and then the name-sorted scalar objects (value a
JSON number), followed only by the optional histograms tail; on the spec
scenario (counters a.b=5 and c.d=0, text readout x=hi, no histograms, no
filter) the body is the exact expected JSON text. -/
theorem claim6_json_document_order :
    (∀ (compile : String → Option Rgx) (sanitize : String → String)
        (prom : Store → Bool → Option Rgx → String) (p : Params) (s : Store)
        (r : Option Rgx) (m : List (String × Nat)),
      p.format = some "json" →
      filterParam compile p = Except.ok r →
      buildAllStats s p.usedonly r = Except.ok m →
      handlerStats compile sanitize prom p s =
        Except.ok (Code.OK, serialize (statsAsJson m
          (buildTextReadouts s p.usedonly r) s.histograms p.usedonly r)) ∧
      m.Pairwise (fun a b => strLt a.1 b.1 = true) ∧
      (buildTextReadouts s p.usedonly r).Pairwise
        (fun a b => strLt a.1 b.1 = true) ∧
      ∃ tail, statsAsJson m (buildTextReadouts s p.usedonly r)
          s.histograms p.usedonly r =
        JValue.obj [("stats", JValue.arr
          ((buildTextReadouts s p.usedonly r).map textReadoutObj ++
            m.map statObj ++ tail))]) ∧
    handlerStats (fun _ => none) (fun v => v) (fun _ _ _ => "")
        ⟨false, none, some "json"⟩
        ⟨[⟨"a.b", 5, true⟩, ⟨"c.d", 0, true⟩], [], [⟨"x", "hi", true⟩], []⟩ =
      Except.ok (Code.OK,
        "\x7b\"stats\":[\x7b\"name\":\"x\",\"value\":\"hi\"\x7d,\x7b\"name\":\"a.b\",\"value\":5\x7d,\x7b\"name\":\"c.d\",\"value\":0\x7d]\x7d") := by
  constructor
  · intro compile sanitize prom p s r m hfmt hr hm
    obtain ⟨hno, hmeq⟩ := buildAllStats_ok_inv hm
    refine ⟨handlerStats_json hfmt hr hm, ?_, ?_, ?_⟩
    · rw [hmeq]
      exact pairwise_foldl_emplace List.Pairwise.nil
    · rw [buildTextReadouts_eq]
      exact pairwise_foldl_emplace List.Pairwise.nil
    · refine ⟨if s.histograms.any
          (fun h => shouldShowMetric h.used h.name p.usedonly r) then
          [histogramsWrapper ((s.histograms.filter
            (fun h => shouldShowMetric h.used h.name p.usedonly r)).map
            computedQuantileObj)]
        else [], ?_⟩
      simp only [statsAsJson]
      rw [histogramJsonFold]
      simp only [Bool.false_or, List.nil_append]
      cases hany : s.histograms.any
          (fun h => shouldShowMetric h.used h.name p.usedonly r) with
      | true => simp [List.append_assoc]
      | false => simp
  · rfl

/-- Witness for C6 on the empty store. -/
theorem claim6_witness :
    handlerStats (fun _ => none) (fun v => v) (fun _ _ _ => "")
        ⟨false, none, some "json"⟩ ⟨[], [], [], []⟩ =
      Except.ok (Code.OK, serialize (statsAsJson []
        (buildTextReadouts ⟨[], [], [], []⟩ false none)
        (⟨[], [], [], []⟩ : Store).histograms false none)) ∧
    ([] : List (String × Nat)).Pairwise (fun a b => strLt a.1 b.1 = true) ∧
    (buildTextReadouts ⟨[], [], [], []⟩ false none).Pairwise
      (fun a b => strLt a.1 b.1 = true) ∧
    ∃ tail, statsAsJson [] (buildTextReadouts ⟨[], [], [], []⟩ false none)
        (⟨[], [], [], []⟩ : Store).histograms false none =
      JValue.obj [("stats", JValue.arr
        ((buildTextReadouts ⟨[], [], [], []⟩ false none).map textReadoutObj ++
          ([] : List (String × Nat)).map statObj ++ tail))] :=
  claim6_json_document_order.1 (fun _ => none) (fun v => v) (fun _ _ _ => "")
    ⟨false, none, some "json"⟩ ⟨[], [], [], []⟩ none [] rfl rfl rfl

/-- C7: for every plain-format request the body is the text readout
section, then the scalar section, then the histogram section; the text
section prints each passing readout name-sorted as name, colon, and the
sanitized value in quotes (the sanitizer touches only the value, never the
name), and the scalar section prints each name-sorted stat with its
unescaped decimal value. -/
theorem claim7_plain_text_sections (compile : String → Option Rgx)
    (sanitize : String → String) (prom : Store → Bool → Option Rgx → String)
    (p : Params) (s : Store) (r : Option Rgx) (m : List (String × Nat))
    (hfmt : p.format = none)
    (hr : filterParam compile p = Except.ok r)
    (hm : buildAllStats s p.usedonly r = Except.ok m) :
    handlerStats compile sanitize prom p s = Except.ok (Code.OK,
      strConcat ((buildTextReadouts s p.usedonly r).map
        (fun kv => kv.1 ++ ": \"" ++ sanitize kv.2 ++ "\"\n")) ++
      strConcat (m.map (fun kv => kv.1 ++ ": " ++ toString kv.2 ++ "\n")) ++
      renderHistograms (buildAllHistograms s p.usedonly r)) ∧
    (buildTextReadouts s p.usedonly r).Pairwise
      (fun a b => strLt a.1 b.1 = true) ∧
    m.Pairwise (fun a b => strLt a.1 b.1 = true) ∧
    (∀ kv ∈ buildTextReadouts s p.usedonly r, ∃ t ∈ s.textReadouts,
      shouldShowMetric t.used t.name p.usedonly r = true ∧
      t.name = kv.1 ∧ t.value = kv.2) ∧
    (∀ t ∈ s.textReadouts,
      shouldShowMetric t.used t.name p.usedonly r = true →
      ∃ v, (t.name, v) ∈ buildTextReadouts s p.usedonly r) := by
  obtain ⟨hno, hmeq⟩ := buildAllStats_ok_inv hm
  refine ⟨handlerStats_plain hfmt hr hm, ?_, ?_, ?_, ?_⟩
  · rw [buildTextReadouts_eq]
    exact pairwise_foldl_emplace List.Pairwise.nil
  · rw [hmeq]
    exact pairwise_foldl_emplace List.Pairwise.nil
  · intro kv hkv
    rw [buildTextReadouts_eq] at hkv
    rcases mem_foldl_emplace hkv with h | h
    · exact absurd h (List.not_mem_nil kv)
    · obtain ⟨t, ht, hteq⟩ := List.mem_map.mp h
      obtain ⟨ht', hp'⟩ := List.mem_filter.mp ht
      exact ⟨t, ht', hp',
        congrArg Prod.fst hteq, congrArg Prod.snd hteq⟩
  · intro t ht hp'
    have hmem : (t.name, t.value) ∈
        ((s.textReadouts.filter
          (fun t => shouldShowMetric t.used t.name p.usedonly r)).map
          (fun t => (t.name, t.value))) :=
      List.mem_map.mpr ⟨t, List.mem_filter.mpr ⟨ht, hp'⟩, rfl⟩
    have hsome : (((s.textReadouts.filter
        (fun t => shouldShowMetric t.used t.name p.usedonly r)).map
        (fun t => (t.name, t.value))).find?
        (fun kv => kv.1 == t.name)).isSome :=
      List.find?_isSome.mpr ⟨(t.name, t.value), hmem, by simp⟩
    obtain ⟨el, hel⟩ := Option.isSome_iff_exists.mp hsome
    have halk : alookup t.name (buildTextReadouts s p.usedonly r) =
        some el.2 := by
      rw [buildTextReadouts_eq, alookup_foldl_emplace List.Pairwise.nil, hel]
      rfl
    exact ⟨el.2, alookup_mem halk⟩

/-- Witness for C7 on the empty store with the identity sanitizer. -/
theorem claim7_witness :
    handlerStats (fun _ => none) (fun v => v) (fun _ _ _ => "")
        ⟨false, none, none⟩ ⟨[], [], [], []⟩ = Except.ok (Code.OK,
      strConcat ((buildTextReadouts ⟨[], [], [], []⟩ false none).map
        (fun kv => kv.1 ++ ": \"" ++ (fun v => v) kv.2 ++ "\"\n")) ++
      strConcat (([] : List (String × Nat)).map
        (fun kv => kv.1 ++ ": " ++ toString kv.2 ++ "\n")) ++
      renderHistograms (buildAllHistograms ⟨[], [], [], []⟩ false none)) ∧
    (buildTextReadouts ⟨[], [], [], []⟩ false none).Pairwise
      (fun a b => strLt a.1 b.1 = true) ∧
    ([] : List (String × Nat)).Pairwise (fun a b => strLt a.1 b.1 = true) ∧
    (∀ kv ∈ buildTextReadouts ⟨[], [], [], []⟩ false none,
      ∃ t ∈ (⟨[], [], [], []⟩ : Store).textReadouts,
      shouldShowMetric t.used t.name false none = true ∧
      t.name = kv.1 ∧ t.value = kv.2) ∧
    (∀ t ∈ (⟨[], [], [], []⟩ : Store).textReadouts,
      shouldShowMetric t.used t.name false none = true →
      ∃ v, (t.name, v) ∈ buildTextReadouts ⟨[], [], [], []⟩ false none) :=
  claim7_plain_text_sections (fun _ => none) (fun v => v) (fun _ _ _ => "")
    ⟨false, none, none⟩ ⟨[], [], [], []⟩ none [] rfl rfl rfl

end EnvoyStats
